import Mathlib

/-!
Verification of NmapDojo core logic: a shallow embedding of the
response-parsing pipeline (`mission_generator.py`, `command_validator.py`),
the progress/XP arithmetic (`progress_manager.py`, `constants.py`) and the
app-level state updates (`app.py`), together with theorems settling the
specification claims.

Texts are modelled as `List Char`.  `json.loads` is embedded as an
executable recursive-descent parser for the JSON fragment the application
exchanges (objects, arrays, strings with the basic escapes, integer
numbers, booleans, null).
-/

namespace NmapDojo

/-! ## Characters and whitespace -/

def dquoteChar : Char := Char.ofNat 34
def bslashChar : Char := Char.ofNat 92
def lbraceChar : Char := Char.ofNat 123
def rbraceChar : Char := Char.ofNat 125
def lbrackChar : Char := '['
def rbrackChar : Char := ']'
/-- Whitespace skipped by the JSON grammar (as in Python's `json` module). -/
def isJsonWs (c : Char) : Bool :=
  c = ' ' || c = Char.ofNat 9 || c = Char.ofNat 10 || c = Char.ofNat 13

/-- Whitespace stripped by Python's `str.strip()` and matched by `\s`
(ASCII fragment). -/
def isPyWs (c : Char) : Bool :=
  c = ' ' || c = Char.ofNat 9 || c = Char.ofNat 10 || c = Char.ofNat 13 ||
  c = Char.ofNat 11 || c = Char.ofNat 12

def skipWs (s : List Char) : List Char := s.dropWhile isJsonWs

def FENCE_OPEN : List Char := "```json".data
inductive JValue where
  | jnull : JValue
  | jbool : Bool → JValue
  | jnum : Int → JValue
  /-- A Python `float`: a JSON number with a fraction or exponent part, or
  one of the extended constants `NaN`, `Infinity`, `-Infinity` that
  Python's `json.loads` accepts.  IEEE-754 arithmetic is out of scope, so
  the value is identified by its source lexeme (Python maps equal lexemes
  to equal floats). -/
  | jfloat : List Char → JValue
  | jstr : List Char → JValue
  | jarr : List JValue → JValue
  | jobj : List (List Char × JValue) → JValue

open JValue

/-- Decode one escape character of a JSON string literal. -/
def escChar (c : Char) : Option Char :=
  if c = dquoteChar then some dquoteChar
  else if c = bslashChar then some bslashChar
  else if c = '/' then some '/'
  else if c = 'b' then some (Char.ofNat 8)
  else if c = 'f' then some (Char.ofNat 12)
  else if c = 'n' then some (Char.ofNat 10)
  else if c = 'r' then some (Char.ofNat 13)
  else if c = 't' then some (Char.ofNat 9)
  else none

/-- Value of a hexadecimal digit, as in a `\uXXXX` escape. -/
def hexVal (c : Char) : Option Nat :=
  if c.isDigit then some (c.toNat - 48)
  else if 'a' ≤ c ∧ c ≤ 'f' then some (c.toNat - 87)
  else if 'A' ≤ c ∧ c ≤ 'F' then some (c.toNat - 55)
  else none

/-- Scan the body of a JSON string literal (after the opening quote) up
to the closing quote, returning each character tagged with whether it was
backslash-escaped, and the input after the closing quote.  As in Python's
strict-mode scanner, a raw (unescaped) control character — code point
below `0x20` — is rejected. -/
def scanString : List Char → Option (List (Bool × Char) × List Char)
  | [] => none
  | c :: r =>
    if c = dquoteChar then some ([], r)
    else if c = bslashChar then
      match r with
      | [] => none
      | e :: r2 =>
        match scanString r2 with
        | some p => some ((true, e) :: p.1, p.2)
        | none => none
    else if c.toNat < 32 then none
    else
      match scanString r with
      | some p => some ((false, c) :: p.1, p.2)
      | none => none

/-- Decode scanned string tokens into UTF-16-style code units: a raw
character or a single-character escape contributes its code point, and a
`\uXXXX` escape — the escape `u` followed by four unescaped hex digits —
contributes its 16-bit unit.  Any other escape is invalid. -/
def decodeUnits : List (Bool × Char) → Option (List Nat)
  | [] => some []
  | (esc, c) :: rest =>
    if esc then
      if c = 'u' then
        match rest with
        | (false, h1) :: (false, h2) :: (false, h3) :: (false, h4) :: rest2 =>
          match hexVal h1, hexVal h2, hexVal h3, hexVal h4 with
          | some a, some b, some c2, some d =>
            match decodeUnits rest2 with
            | some ns => some ((((a * 16 + b) * 16 + c2) * 16 + d) :: ns)
            | none => none
          | _, _, _, _ => none
        | _ => none
      else
        match escChar c, decodeUnits rest with
        | some ch, some ns => some (ch.toNat :: ns)
        | _, _ => none
    else
      match decodeUnits rest with
      | some ns => some (c.toNat :: ns)
      | none => none

/-- Combine an adjacent high/low surrogate unit pair (necessarily from
two `\uXXXX` escapes, since every other token yields a scalar value) into
the astral code point, as Python's scanner does. -/
def combineSurrogates : List Nat → List Nat
  | [] => []
  | [n] => [n]
  | n1 :: n2 :: rest =>
    if (0xD800 ≤ n1 ∧ n1 ≤ 0xDBFF) ∧ (0xDC00 ≤ n2 ∧ n2 ≤ 0xDFFF) then
      (0x10000 + (n1 - 0xD800) * 0x400 + (n2 - 0xDC00)) :: combineSurrogates rest
    else n1 :: combineSurrogates (n2 :: rest)

/-- Parse the body of a JSON string literal: scan it, decode escapes into
code units, combine surrogate pairs, and read each remaining unit as a
character.  Python's `str` can hold a lone surrogate from a solitary
`\uD800`–`\uDFFF` escape; Lean's `Char` cannot, so `Char.ofNat` clamps it
to `NUL` — acceptance and the remaining input agree with Python, only
that unrepresentable character differs. -/
def parseStringBody (s : List Char) : Option (List Char × List Char) :=
  match scanString s with
  | some p =>
    match decodeUnits p.1 with
    | some ns => some ((combineSurrogates ns).map Char.ofNat, p.2)
    | none => none
  | none => none

def digitVal (c : Char) : Nat := c.toNat - 48

/-- Split off the leading run of decimal digits. -/
def spanDigits : List Char → List Char × List Char
  | [] => ([], [])
  | c :: r =>
    if c.isDigit then
      let p := spanDigits r
      (c :: p.1, p.2)
    else ([], c :: r)

/-- The integer part of a JSON number: `0`, or a nonzero digit followed by
digits (no leading zeros). -/
def parseIntPart : List Char → Option (List Char × List Char)
  | [] => none
  | c :: r =>
    if c = '0' then some (['0'], r)
    else if c.isDigit then
      let p := spanDigits r
      some (c :: p.1, p.2)
    else none

/-- The optional fraction part of a JSON number: `.` then at least one
digit; returns the consumed lexeme (empty when no `.` follows). -/
def parseFracPart : List Char → Option (List Char × List Char)
  | [] => some ([], [])
  | c :: r =>
    if c = '.' then
      match r with
      | [] => none
      | d :: _ =>
        if d.isDigit then
          let p := spanDigits r
          some ('.' :: p.1, p.2)
        else none
    else some ([], c :: r)

/-- The optional exponent part of a JSON number: `e`/`E`, an optional
sign, then at least one digit; returns the consumed lexeme. -/
def parseExpPart : List Char → Option (List Char × List Char)
  | [] => some ([], [])
  | c :: r =>
    if c = 'e' ∨ c = 'E' then
      match r with
      | [] => none
      | d :: r2 =>
        if d = '+' ∨ d = '-' then
          match r2 with
          | [] => none
          | d2 :: _ =>
            if d2.isDigit then
              let p := spanDigits r2
              some (c :: d :: p.1, p.2)
            else none
        else if d.isDigit then
          let p := spanDigits r
          some (c :: p.1, p.2)
        else none
    else some ([], c :: r)

/-- Signed integer value of a digit lexeme. -/
def intOfDigits (neg : Bool) (ds : List Char) : Int :=
  let n : Nat := ds.foldl (fun a c => a * 10 + digitVal c) 0
  if neg then -(n : Int) else (n : Int)

/-- Parse a JSON number after an optional already-consumed `-` sign: an
integer part, an optional fraction and an optional exponent.  With
neither extra part it is a Python `int`; otherwise a Python `float`,
represented by its lexeme. -/
def parseNumber (neg : Bool) (s : List Char) : Option (JValue × List Char) :=
  match parseIntPart s with
  | none => none
  | some ip =>
    match parseFracPart ip.2 with
    | none => none
    | some fp =>
      match parseExpPart fp.2 with
      | none => none
      | some ep =>
        if fp.1.isEmpty && ep.1.isEmpty then
          some (JValue.jnum (intOfDigits neg ip.1), ep.2)
        else
          some (JValue.jfloat ((if neg then ['-'] else []) ++ ip.1 ++ fp.1 ++ ep.1), ep.2)

/-- Parsing modes: a value, or the inside of an array/object after the
opening bracket (`Body` directly after it, `Loop` after a parsed item). -/
inductive PMode where
  | value : PMode
  | arrBody : PMode
  | arrLoop : PMode
  | objBody : PMode
  | objLoop : PMode
deriving DecidableEq

/-- Fuel-indexed recursive-descent JSON parser.  Array modes return
`jarr`, object modes return `jobj`. -/
def parseF : Nat → PMode → List Char → Option (JValue × List Char)
  | 0, _, _ => none
  | fuel+1, PMode.value, s =>
    match skipWs s with
    | [] => none
    | c :: r =>
      if c = dquoteChar then
        match parseStringBody r with
        | some p => some (jstr p.1, p.2)
        | none => none
      else if c = lbrackChar then parseF fuel PMode.arrBody r
      else if c = lbraceChar then parseF fuel PMode.objBody r
      else if c = '-' then
        if "Infinity".data.isPrefixOf r then some (jfloat "-Infinity".data, r.drop 8)
        else parseNumber true r
      else if c.isDigit then parseNumber false (c :: r)
      else if c = 'n' then
        if "ull".data.isPrefixOf r then some (jnull, r.drop 3) else none
      else if c = 't' then
        if "rue".data.isPrefixOf r then some (jbool true, r.drop 3) else none
      else if c = 'f' then
        if "alse".data.isPrefixOf r then some (jbool false, r.drop 4) else none
      else if c = 'N' then
        if "aN".data.isPrefixOf r then some (jfloat "NaN".data, r.drop 2) else none
      else if c = 'I' then
        if "nfinity".data.isPrefixOf r then some (jfloat "Infinity".data, r.drop 7) else none
      else none
  | fuel+1, PMode.arrBody, s =>
    match skipWs s with
    | [] => none
    | c :: r =>
      if c = rbrackChar then some (jarr [], r)
      else
        match parseF fuel PMode.value (c :: r) with
        | some p =>
          match parseF fuel PMode.arrLoop p.2 with
          | some (jarr xs, rest) => some (jarr (p.1 :: xs), rest)
          | _ => none
        | none => none
  | fuel+1, PMode.arrLoop, s =>
    match skipWs s with
    | [] => none
    | c :: r =>
      if c = rbrackChar then some (jarr [], r)
      else if c = ',' then
        match parseF fuel PMode.value r with
        | some p =>
          match parseF fuel PMode.arrLoop p.2 with
          | some (jarr xs, rest) => some (jarr (p.1 :: xs), rest)
          | _ => none
        | none => none
      else none
  | fuel+1, PMode.objBody, s =>
    match skipWs s with
    | [] => none
    | c :: r =>
      if c = rbraceChar then some (jobj [], r)
      else if c = dquoteChar then
        match parseStringBody r with
        | some kp =>
          match skipWs kp.2 with
          | [] => none
          | d :: r2 =>
            if d = ':' then
              match parseF fuel PMode.value r2 with
              | some vp =>
                match parseF fuel PMode.objLoop vp.2 with
                | some (jobj kvs, rest) => some (jobj ((kp.1, vp.1) :: kvs), rest)
                | _ => none
              | none => none
            else none
        | none => none
      else none
  | fuel+1, PMode.objLoop, s =>
    match skipWs s with
    | [] => none
    | c :: r =>
      if c = rbraceChar then some (jobj [], r)
      else if c = ',' then
        match skipWs r with
        | [] => none
        | d :: r2 =>
          if d = dquoteChar then
            match parseStringBody r2 with
            | some kp =>
              match skipWs kp.2 with
              | [] => none
              | e :: r4 =>
                if e = ':' then
                  match parseF fuel PMode.value r4 with
                  | some vp =>
                    match parseF fuel PMode.objLoop vp.2 with
                    | some (jobj kvs, rest) => some (jobj ((kp.1, vp.1) :: kvs), rest)
                    | _ => none
                  | none => none
                else none
            | none => none
          else none
      else none

/-- Model of `json.loads`: parse one value and require only whitespace after it. -/
def jsonParse (s : List Char) : Option JValue :=
  match parseF (s.length + 1) PMode.value s with
  | some p => if skipWs p.2 = [] then some p.1 else none
  | none => none

/-- Python truthiness of a parsed JSON value.  A float is falsy exactly
when it is zero: every mantissa character (before any exponent) is a `0`,
the point or the sign; `NaN` and the infinities are truthy. -/
def truthy : JValue → Bool
  | jnull => false
  | jbool b => b
  | jnum n => n != 0
  | jfloat lex =>
    !((lex.takeWhile (fun c => !(c == 'e' || c == 'E'))).all
        (fun c => c == '0' || c == '.' || c == '-'))
  | jstr cs => !cs.isEmpty
  | jarr xs => !xs.isEmpty
  | jobj kvs => !kvs.isEmpty

/-! ## The AI call-and-parse operations

`MissionGenerator.generate_mission` and `CommandValidator.validate_command`
strip fences from the model's response text, run `json.loads`, and on a
parse error retry (bounded by `retry < 2` resp. `retry < 1`), finally
returning `None`.  The remote model is an oracle mapping the attempt
number to a response text; results are paired with the number of model
calls made. -/

def XP_FIRST_TRY : Int := 100
def XP_ONE_HINT : Int := 50
def XP_TWO_HINTS : Int := 25

/-- Table `LEVEL_THRESHOLDS`: rows `(level, (min_xp, max_xp))` in insertion
order; `none` stands for `float('inf')`. -/
def LEVEL_THRESHOLDS : List (Nat × Int × Option Int) :=
  [(1, 0, some 299), (2, 300, some 699), (3, 700, some 1199),
   (4, 1200, some 1999), (5, 2000, none)]

def FUNDAMENTAL_TOPICS : List (List Char) :=
  ["Host Discovery".data, "Port Scanning".data, "Service/OS Detection".data,
   "Timing/Performance".data, "Evasion".data, "Output".data, "Scripting".data]

def ADVANCED_TOPICS : List (List Char) :=
  ["Firewall/IDS Bypass Advanced".data, "IPv6 Scanning".data,
   "NSE Script Categories".data, "Aggressive & Combo Scanning".data,
   "Protocol-Specific Enumeration".data]

def ALL_TOPICS : List (List Char) := FUNDAMENTAL_TOPICS ++ ADVANCED_TOPICS

/-! ## Progress arithmetic (`core/progress_manager.py`) -/

/-- Does a threshold row contain the given XP amount
(`min_xp <= xp <= max_xp`)? -/
def rowHasXp (xp : Int) (row : Nat × Int × Option Int) : Bool :=
  decide (row.2.1 ≤ xp) &&
    (match row.2.2 with
     | some mx => decide (xp ≤ mx)
     | none => true)

/-- Model of `ProgressManager.calculate_level`: first matching row wins, default 5. -/
def calculate_level (xp : Int) : Nat :=
  match LEVEL_THRESHOLDS.find? (rowHasXp xp) with
  | some row => row.1
  | none => 5

/-! ## Topic rotation (`core/mission_generator.py: get_next_topic`) -/

structure MissionGenState where
  level : Int
  last_topic_index : Int

/-- The topic list `get_next_topic` selects from at a given level. -/
def activeTopics (level : Int) : List (List Char) :=
  if level ≤ 3 then FUNDAMENTAL_TOPICS else ALL_TOPICS

/-- Model of `MissionGenerator.get_next_topic`: advance the index modulo the active
topic list and return the topic there (Python `%` on a positive modulus
agrees with `Int.emod`). -/
def get_next_topic (g : MissionGenState) : List Char × MissionGenState :=
  let topics := activeTopics g.level
  let idx : Int := (g.last_topic_index + 1) % (topics.length : Int)
  (topics.getD idx.toNat [], ⟨g.level, idx⟩)

/-! ## Application state (`ui/app.py`)

Only the progress- and mission-related fields are modelled; the widget
tree and the terminal transcript carry no state the claims are about. -/

structure AppState where
  xp : Int
  level : Nat
  last_topic_index : Int
  missions_completed : Int
  hints_used : Nat
  mission_completed : Bool
  explain_visible : Bool
  current_mission : Option JValue
  saves : Nat

/-- Key lookup on a parsed JSON object (`dict(pairs)` keeps the last
binding of a duplicated key). -/
def lookupKey (kvs : List (List Char × JValue)) (k : List Char) : Option JValue :=
  (kvs.reverse.find? (fun kv => kv.1 == k)).map Prod.snd

/-- Python `dict.get(k, dflt)`. -/
def dictGet (kvs : List (List Char × JValue)) (k : List Char) (dflt : JValue) : JValue :=
  (lookupKey kvs k).getD dflt

/-- Model of `NmapDojoApp.award_xp`: XP gained is decided by `hints_used`, then the
level is recomputed from the new total.  Returns the updated state and the
new total XP (the method's return value). -/
def award_xp (s : AppState) : AppState × Int :=
  let gained : Int :=
    if s.hints_used = 0 then XP_FIRST_TRY
    else if s.hints_used = 1 then XP_ONE_HINT
    else XP_TWO_HINTS
  let xp2 := s.xp + gained
  ({ s with xp := xp2, level := calculate_level xp2 }, xp2)

/-- Model of `CommandValidator.process_validation_result` wired to the
`NmapDojoApp` callbacks: on a truthy `correct` field award XP, mark the
mission completed, bump the counter and save; otherwise only reveal the
explain button.  Terminal printing is not modelled. -/
def process_validation_result (result : List (List Char × JValue)) (s : AppState) : AppState :=
  if truthy (dictGet result "correct".data (jbool false)) then
    let p := award_xp s
    { p.1 with
      mission_completed := true,
      missions_completed := p.1.missions_completed + 1,
      saves := p.1.saves + 1,
      explain_visible := false }
  else
    { s with explain_visible := true }

/-- The user-triggered operations of the running app that touch the
modelled state (command validation, new mission, hint, explain, and the
terminal-only `help`/`clear`/`status` commands). -/
inductive AppOp where
  | validation (result : Option (List (List Char × JValue))) : AppOp
  | newMission (gen : Option (JValue × Int)) : AppOp
  | getHint : AppOp
  | explainWhy : AppOp
  | helpCmd : AppOp
  | clearCmd : AppOp
  | statusCmd : AppOp

def applyOp (s : AppState) (op : AppOp) : AppState :=
  match op with
  | .validation result =>
    match result with
    | some r => process_validation_result r s
    | none => s
  | .newMission gen =>
    let s1 := { s with mission_completed := false, hints_used := 0, explain_visible := false }
    match gen with
    | some (m, idx) => { s1 with current_mission := some m, last_topic_index := idx }
    | none => s1
  | .getHint =>
    match s.current_mission with
    | none => s
    | some _ =>
      if s.mission_completed then s
      else { s with hints_used := s.hints_used + 1 }
  | .explainWhy => s
  | .helpCmd => s
  | .clearCmd => s
  | .statusCmd => s

/-! ## Progress persistence (`core/progress_manager.py`, `models/types.py`) -/

/-- Record from `models/types.py: ProgressData`. -/
structure ProgressData where
  xp : Int
  level : Int
  last_topic_index : Int
  missions_completed : Int

/-- Little-endian decimal digits of `n` (enough fuel: `n ≤ fuel`). -/
def digitsLE : Nat → Nat → List Nat
  | 0, _ => []
  | fuel+1, n => if n = 0 then [] else (n % 10) :: digitsLE fuel (n / 10)

def digitCh (d : Nat) : Char := Char.ofNat (48 + d)

def renderNat (n : Nat) : List Char :=
  if n = 0 then ['0'] else ((digitsLE n n).map digitCh).reverse

def renderInt (n : Int) : List Char :=
  if n < 0 then '-' :: renderNat n.natAbs else renderNat n.toNat

/-- Model of `ProgressManager.save_progress`: the exact file text written by
`json.dump(data, f, indent=2)` for the four-field record built in
`NmapDojoApp.save_progress`. -/
def save_progress (d : ProgressData) : List Char :=
  "\x7b\n  \"xp\": ".data ++ renderInt d.xp ++
  ",\n  \"level\": ".data ++ renderInt d.level ++
  ",\n  \"last_topic_index\": ".data ++ renderInt d.last_topic_index ++
  ",\n  \"missions_completed\": ".data ++ renderInt d.missions_completed ++
  "\n\x7d".data

/-- What `ProgressManager.load_progress` can observe of the progress file. -/
inductive FileRead where
  | absent : FileRead
  | ioError : FileRead
  | content (s : List Char) : FileRead

/-- The four manager fields after loading (Python assigns whatever JSON
value `data.get` returns, so fields are `JValue`s). -/
structure LoadedProgress where
  xp : JValue
  level : JValue
  last_topic_index : JValue
  missions_completed : JValue

def defaultLoaded : LoadedProgress := ⟨jnum 0, jnum 1, jnum (-1), jnum 0⟩

/-- Model of `ProgressManager.load_progress`: absent file, unreadable file and
malformed JSON all fall back to the in-memory defaults; a JSON object
fills fields with per-key defaults; any other JSON value hits
`data.get` on a non-dict, an `AttributeError` that no `except` clause
catches (`.error`). -/
def load_progress (f : FileRead) : Except Unit LoadedProgress :=
  match f with
  | .absent => .ok defaultLoaded
  | .ioError => .ok defaultLoaded
  | .content s =>
    match jsonParse s with
    | none => .ok defaultLoaded
    | some (jobj kvs) =>
      .ok ⟨dictGet kvs "xp".data (jnum 0),
           dictGet kvs "level".data (jnum 1),
           dictGet kvs "last_topic_index".data (jnum (-1)),
           dictGet kvs "missions_completed".data (jnum 0)⟩
    | some _ => .error ()

/-! ## Helper lemmas on the app state -/

theorem award_xp_gained (s : AppState) :
    (award_xp s).1.xp = s.xp +
      (if s.hints_used = 0 then 100 else if s.hints_used = 1 then 50 else 25) := by
  simp only [award_xp, XP_FIRST_TRY, XP_ONE_HINT, XP_TWO_HINTS]

theorem award_xp_lt (s : AppState) : s.xp < (award_xp s).1.xp := by
  rw [award_xp_gained]; split_ifs <;> omega

theorem pvr_xp_le (r : List (List Char × JValue)) (s : AppState) :
    s.xp ≤ (process_validation_result r s).xp := by
  unfold process_validation_result
  split
  · exact le_trans (award_xp_lt s).le (by simp)
  · simp

theorem applyOp_xp_le (s : AppState) (op : AppOp) : s.xp ≤ (applyOp s op).xp := by
  cases op with
  | validation r =>
    cases r with
    | some r => exact pvr_xp_le r s
    | none => simp [applyOp]
  | newMission gen =>
    cases gen with
    | some p => simp [applyOp]
    | none => simp [applyOp]
  | getHint =>
    unfold applyOp
    cases s.current_mission
    · simp
    · simp
      split <;> simp
  | explainWhy => simp [applyOp]
  | helpCmd => simp [applyOp]
  | clearCmd => simp [applyOp]
  | statusCmd => simp [applyOp]

/-! ## Claim C4 -/

/-- C4: for every non-negative XP amount, `calculate_level` returns the
level given by the five-row threshold table — 1 on 0-299, 2 on 300-699,
3 on 700-1199, 4 on 1200-1999, and 5 from 2000 on — and this row is the
unique one containing the XP amount. -/
theorem c4_calculate_level_table (xp : Int) (hxp : 0 ≤ xp) :
    (xp ≤ 299 → calculate_level xp = 1) ∧
    (300 ≤ xp → xp ≤ 699 → calculate_level xp = 2) ∧
    (700 ≤ xp → xp ≤ 1199 → calculate_level xp = 3) ∧
    (1200 ≤ xp → xp ≤ 1999 → calculate_level xp = 4) ∧
    (2000 ≤ xp → calculate_level xp = 5) ∧
    (∀ row ∈ LEVEL_THRESHOLDS, rowHasXp xp row = true ↔ row.1 = calculate_level xp) := by
  have hval : calculate_level xp =
      (if xp ≤ 299 then 1 else if xp ≤ 699 then 2 else if xp ≤ 1199 then 3
       else if xp ≤ 1999 then 4 else 5) := by
    by_cases c1 : xp ≤ 299
    · have e1 : decide ((0 : Int) ≤ xp) = true := decide_eq_true hxp
      have e2 : decide (xp ≤ (299 : Int)) = true := decide_eq_true c1
      simp only [calculate_level, LEVEL_THRESHOLDS, List.find?, rowHasXp, e1, e2,
        Bool.true_and, Bool.and_true, if_pos c1]
    · by_cases c2 : xp ≤ 699
      · have e1 : decide ((0 : Int) ≤ xp) = true := decide_eq_true hxp
        have e2 : decide (xp ≤ (299 : Int)) = false := decide_eq_false c1
        have e3 : decide ((300 : Int) ≤ xp) = true := decide_eq_true (by omega)
        have e4 : decide (xp ≤ (699 : Int)) = true := decide_eq_true c2
        simp only [calculate_level, LEVEL_THRESHOLDS, List.find?, rowHasXp, e1, e2, e3, e4,
          Bool.true_and, Bool.and_true, Bool.and_false, Bool.false_and, if_neg c1, if_pos c2]
      · by_cases c3 : xp ≤ 1199
        · have e2 : decide (xp ≤ (299 : Int)) = false := decide_eq_false c1
          have e4 : decide (xp ≤ (699 : Int)) = false := decide_eq_false c2
          have e5 : decide ((700 : Int) ≤ xp) = true := decide_eq_true (by omega)
          have e6 : decide (xp ≤ (1199 : Int)) = true := decide_eq_true c3
          simp only [calculate_level, LEVEL_THRESHOLDS, List.find?, rowHasXp, e2, e4, e5, e6,
            Bool.true_and, Bool.and_true, Bool.and_false, Bool.false_and,
            if_neg c1, if_neg c2, if_pos c3]
        · by_cases c4 : xp ≤ 1999
          · have e2 : decide (xp ≤ (299 : Int)) = false := decide_eq_false c1
            have e4 : decide (xp ≤ (699 : Int)) = false := decide_eq_false c2
            have e6 : decide (xp ≤ (1199 : Int)) = false := decide_eq_false c3
            have e7 : decide ((1200 : Int) ≤ xp) = true := decide_eq_true (by omega)
            have e8 : decide (xp ≤ (1999 : Int)) = true := decide_eq_true c4
            simp only [calculate_level, LEVEL_THRESHOLDS, List.find?, rowHasXp, e2, e4, e6,
              e7, e8, Bool.true_and, Bool.and_true, Bool.and_false, Bool.false_and,
              if_neg c1, if_neg c2, if_neg c3, if_pos c4]
          · have e2 : decide (xp ≤ (299 : Int)) = false := decide_eq_false c1
            have e4 : decide (xp ≤ (699 : Int)) = false := decide_eq_false c2
            have e6 : decide (xp ≤ (1199 : Int)) = false := decide_eq_false c3
            have e8 : decide (xp ≤ (1999 : Int)) = false := decide_eq_false c4
            have e9 : decide ((2000 : Int) ≤ xp) = true := decide_eq_true (by omega)
            simp only [calculate_level, LEVEL_THRESHOLDS, List.find?, rowHasXp, e2, e4, e6,
              e8, e9, Bool.true_and, Bool.and_true, Bool.and_false, Bool.false_and,
              if_neg c1, if_neg c2, if_neg c3, if_neg c4]
  refine ⟨?_, ?_, ?_, ?_, ?_, ?_⟩
  · intro h; rw [hval]; split_ifs <;> omega
  · intro h h'; rw [hval]; split_ifs <;> omega
  · intro h h'; rw [hval]; split_ifs <;> omega
  · intro h h'; rw [hval]; split_ifs <;> omega
  · intro h; rw [hval]; split_ifs <;> omega
  · intro row hrow
    rw [hval]
    simp only [LEVEL_THRESHOLDS, List.mem_cons, List.not_mem_nil, or_false] at hrow
    rcases hrow with h | h | h | h | h <;> subst h <;>
      simp only [rowHasXp, Bool.and_eq_true, decide_eq_true_eq, Bool.and_true] <;>
      split_ifs <;> omega

/-- Witness for C4 at `xp = 500`. -/
theorem c4_calculate_level_table_witness : calculate_level 500 = 2 :=
  (c4_calculate_level_table 500 (by norm_num)).2.1 (by norm_num) (by norm_num)

/-! ## Claim C5 -/

/-- C5: `get_next_topic` advances `last_topic_index` to
`(last_topic_index + 1) %` the active topic-list length (7 fundamental
topics for level ≤ 3, 12 combined topics for level ≥ 4), the new index is
always in range, and the returned topic is the list entry at the new
index. -/
theorem c5_get_next_topic_round_robin (g : MissionGenState) :
    (get_next_topic g).2.last_topic_index
        = (g.last_topic_index + 1) % ((activeTopics g.level).length : Int) ∧
    (get_next_topic g).2.level = g.level ∧
    (activeTopics g.level).length = (if g.level ≤ 3 then 7 else 12) ∧
    0 ≤ (get_next_topic g).2.last_topic_index ∧
    (get_next_topic g).2.last_topic_index < ((activeTopics g.level).length : Int) ∧
    ∃ h : ((get_next_topic g).2.last_topic_index).toNat < (activeTopics g.level).length,
      (get_next_topic g).1
        = (activeTopics g.level).get ⟨((get_next_topic g).2.last_topic_index).toNat, h⟩ := by
  have hlen : (activeTopics g.level).length = if g.level ≤ 3 then 7 else 12 := by
    unfold activeTopics; split <;> rfl
  have hpos : 0 < (activeTopics g.level).length := by
    rw [hlen]; split <;> norm_num
  have hposZ : (0 : Int) < ((activeTopics g.level).length : Int) := by exact_mod_cast hpos
  have hidx : (get_next_topic g).2.last_topic_index
      = (g.last_topic_index + 1) % ((activeTopics g.level).length : Int) := rfl
  have hnonneg : 0 ≤ (get_next_topic g).2.last_topic_index := by
    rw [hidx]; exact Int.emod_nonneg _ hposZ.ne'
  have hlt : (get_next_topic g).2.last_topic_index < ((activeTopics g.level).length : Int) := by
    rw [hidx]; exact Int.emod_lt_of_pos _ hposZ
  have hltN : ((get_next_topic g).2.last_topic_index).toNat < (activeTopics g.level).length := by
    omega
  refine ⟨hidx, rfl, hlen, hnonneg, hlt, hltN, ?_⟩
  show (activeTopics g.level).getD
      (((g.last_topic_index + 1) % ((activeTopics g.level).length : Int)).toNat) [] = _
  rw [List.getD_eq_getElem]
  simp only [List.get_eq_getElem]
  rfl

/-- Witness for C5 (C5 has no propositional hypothesis; this instantiates
it at a fresh state anyway). -/
theorem c5_get_next_topic_round_robin_witness :
    (get_next_topic ⟨1, -1⟩).2.last_topic_index = 0 := by
  have h := (c5_get_next_topic_round_robin ⟨1, -1⟩).1
  simpa using h

/-! ## Claim C6 -/

/-- C6: XP never decreases.  `award_xp` — the only operation writing the
XP counter — strictly increases it, every single app operation is
non-decreasing in XP, and hence along every operation sequence the final
XP dominates the initial XP (so by instantiating the sequence lemma at a
suffix, every later value dominates every earlier one). -/
theorem c6_xp_monotone :
    (∀ s : AppState, s.xp < (award_xp s).1.xp) ∧
    (∀ (s : AppState) (op : AppOp), s.xp ≤ (applyOp s op).xp) ∧
    (∀ (s : AppState) (ops : List AppOp), s.xp ≤ (ops.foldl applyOp s).xp) := by
  refine ⟨award_xp_lt, applyOp_xp_le, ?_⟩
  intro s ops
  induction ops generalizing s with
  | nil => simp
  | cons op rest ih =>
    exact le_trans (applyOp_xp_le s op) (ih (applyOp s op))

/-! ## Claim C9 -/

/-- C9: `award_xp` awards exactly 100 XP with no hints used, 50 with one
hint, 25 with two or more, returns the new total, and recomputes the
level so it equals `calculate_level` of the new XP total. -/
theorem c9_award_xp_amounts (s : AppState) :
    (s.hints_used = 0 → (award_xp s).1.xp = s.xp + 100) ∧
    (s.hints_used = 1 → (award_xp s).1.xp = s.xp + 50) ∧
    (2 ≤ s.hints_used → (award_xp s).1.xp = s.xp + 25) ∧
    (award_xp s).2 = (award_xp s).1.xp ∧
    (award_xp s).1.level = calculate_level ((award_xp s).1.xp) := by
  refine ⟨?_, ?_, ?_, rfl, rfl⟩
  · intro h; rw [award_xp_gained]; simp [h]
  · intro h; rw [award_xp_gained]; simp [h]
  · intro h2; rw [award_xp_gained]
    have h0 : ¬ s.hints_used = 0 := by omega
    have h1 : ¬ s.hints_used = 1 := by omega
    simp [h0, h1]

/-- Witness for C9: the three hint counts at a concrete state. -/
theorem c9_award_xp_amounts_witness :
    (award_xp ⟨0, 1, -1, 0, 0, false, false, none, 0⟩).1.xp = 0 + 100 ∧
    (award_xp ⟨0, 1, -1, 0, 1, false, false, none, 0⟩).1.xp = 0 + 50 ∧
    (award_xp ⟨0, 1, -1, 0, 2, false, false, none, 0⟩).1.xp = 0 + 25 :=
  ⟨(c9_award_xp_amounts _).1 rfl, (c9_award_xp_amounts _).2.1 rfl,
   (c9_award_xp_amounts _).2.2.1 (by norm_num)⟩

/-! ## Claim C10 -/

/-- C10: when the validation result's `correct` field is `false` or
absent (so `result.get('correct', False)` yields `False`),
`process_validation_result` only reveals the explain button: XP, level,
missions completed, the completed flag and the save count are all
untouched. -/
theorem c10_failure_frame (s : AppState) (kvs : List (List Char × JValue))
    (h : dictGet kvs "correct".data (jbool false) = jbool false) :
    process_validation_result kvs s = { s with explain_visible := true } := by
  unfold process_validation_result
  rw [h]
  simp [truthy]

/-- Witness for C10: an empty result object (absent `correct` key) at a
concrete state. -/
theorem c10_failure_frame_witness :
    process_validation_result [] ⟨10, 1, -1, 0, 0, false, false, none, 0⟩ =
      ⟨10, 1, -1, 0, 0, false, true, none, 0⟩ :=
  c10_failure_frame _ _ rfl

/-! ## Claim C2

The claim says both operations retry exactly once and return `None` when
the retried response is also malformed.  That is what
`CommandValidator.validate_command` does (`retry < 1`), but
`MissionGenerator.generate_mission` retries up to twice (`retry < 2`),
so with two malformed responses it issues a third request instead of
giving up. -/

/-- C8 counterexample: a progress file containing `5` (valid JSON, not an
object) makes `load_progress` propagate an error instead of returning the
default record. -/
theorem c8_counterexample :
    load_progress (.content "5".data) = .error () :=
  rfl

/-- C8 (amended): for an absent file, an unreadable file or malformed
JSON, `load_progress` raises nothing and returns the default record
`(xp 0, level 1, last_topic_index -1, missions_completed 0)`; for a JSON
object, each of the four fields missing from it takes its default.  (A
valid-JSON non-object file, by contrast, raises.) -/
theorem c8_load_progress_defaults :
    load_progress .absent = .ok defaultLoaded ∧
    load_progress .ioError = .ok defaultLoaded ∧
    (∀ s, jsonParse s = none → load_progress (.content s) = .ok defaultLoaded) ∧
    (∀ s kvs, jsonParse s = some (jobj kvs) →
      ∃ lp, load_progress (.content s) = .ok lp ∧
        (lookupKey kvs "xp".data = none → lp.xp = jnum 0) ∧
        (lookupKey kvs "level".data = none → lp.level = jnum 1) ∧
        (lookupKey kvs "last_topic_index".data = none → lp.last_topic_index = jnum (-1)) ∧
        (lookupKey kvs "missions_completed".data = none → lp.missions_completed = jnum 0)) := by
  refine ⟨rfl, rfl, ?_, ?_⟩
  · intro s h
    simp [load_progress, h]
  · intro s kvs h
    refine ⟨⟨dictGet kvs "xp".data (jnum 0), dictGet kvs "level".data (jnum 1),
      dictGet kvs "last_topic_index".data (jnum (-1)),
      dictGet kvs "missions_completed".data (jnum 0)⟩, ?_, ?_, ?_, ?_, ?_⟩
    · simp [load_progress, h]
    · intro hk; simp [dictGet, hk]
    · intro hk; simp [dictGet, hk]
    · intro hk; simp [dictGet, hk]
    · intro hk; simp [dictGet, hk]

/-- Witness for C8 (amended): malformed JSON and an object missing every
field both load as the default record. -/
theorem c8_load_progress_defaults_witness :
    load_progress (.content "x".data) = .ok defaultLoaded ∧
    load_progress (.content "\x7b\x7d".data) = .ok defaultLoaded := by
  constructor
  · exact c8_load_progress_defaults.2.2.1 _ rfl
  · obtain ⟨lp, h1, h2, h3, h4, h5⟩ :=
      c8_load_progress_defaults.2.2.2 "\x7b\x7d".data [] rfl
    rw [h1]
    obtain ⟨a, b, c, d⟩ := lp
    have e2 : a = jnum 0 := h2 rfl
    have e3 : b = jnum 1 := h3 rfl
    have e4 : c = jnum (-1) := h4 rfl
    have e5 : d = jnum 0 := h5 rfl
    subst e2; subst e3; subst e4; subst e5
    rfl

/-! ## Number rendering and parsing lemmas (toward the C7 round trip) -/

/-- The continuation after a rendered number must not begin with a digit. -/
def noDigitHead : List Char → Prop
  | [] => True
  | c :: _ => c.isDigit = false

/-- The continuation after a rendered number must not extend it: no
digit, no fraction point, no exponent marker at its head. -/
def numBoundary : List Char → Prop
  | [] => True
  | c :: _ => c.isDigit = false ∧ c ≠ '.' ∧ c ≠ 'e' ∧ c ≠ 'E'

theorem numBoundary_noDigit (rest : List Char) (hr : numBoundary rest) :
    noDigitHead rest := by
  cases rest with
  | nil => trivial
  | cons c r => exact hr.1

theorem digitsLE_zero (fuel : Nat) : digitsLE fuel 0 = [] := by
  cases fuel <;> simp [digitsLE]

/-- Little-endian Horner value of a digit list. -/
def hornerLE (L : List Nat) : Nat := L.foldr (fun d a => a * 10 + d) 0

theorem digitsLE_horner : ∀ fuel n, n ≤ fuel → hornerLE (digitsLE fuel n) = n := by
  intro fuel
  induction fuel with
  | zero => intro n h; interval_cases n; simp [digitsLE, hornerLE]
  | succ fuel ih =>
    intro n h
    by_cases hn : n = 0
    · subst hn; simp [digitsLE, hornerLE]
    · have hdiv : n / 10 ≤ fuel := by
        have := Nat.div_lt_self (Nat.pos_of_ne_zero hn) (by norm_num : 1 < 10)
        omega
      simp only [digitsLE, if_neg hn, hornerLE, List.foldr_cons]
      have hih := ih (n / 10) hdiv
      simp only [hornerLE] at hih
      rw [hih]
      omega

theorem digitsLE_lt10 : ∀ fuel n d, d ∈ digitsLE fuel n → d < 10 := by
  intro fuel
  induction fuel with
  | zero => intro n d hd; simp [digitsLE] at hd
  | succ fuel ih =>
    intro n d hd
    by_cases hn : n = 0
    · rw [hn] at hd; simp [digitsLE] at hd
    · simp only [digitsLE, if_neg hn, List.mem_cons] at hd
      rcases hd with h | h
      · subst h; exact Nat.mod_lt _ (by norm_num)
      · exact ih _ _ h

theorem digitsLE_last : ∀ fuel n, n ≠ 0 → n ≤ fuel →
    ∃ ds d, digitsLE fuel n = ds ++ [d] ∧ d ≠ 0 := by
  intro fuel
  induction fuel with
  | zero => intro n h h'; omega
  | succ fuel ih =>
    intro n hn h
    by_cases hq : n / 10 = 0
    · refine ⟨[], n % 10, ?_, ?_⟩
      · simp [digitsLE, hn, hq, digitsLE_zero]
      · omega
    · have hdiv : n / 10 ≤ fuel := by
        have := Nat.div_lt_self (Nat.pos_of_ne_zero hn) (by norm_num : 1 < 10)
        omega
      obtain ⟨ds, d, hds, hd⟩ := ih (n / 10) hq hdiv
      exact ⟨n % 10 :: ds, d, by simp [digitsLE, hn, hds], hd⟩

theorem digitCh_isDigit (d : Nat) (hd : d < 10) : (digitCh d).isDigit = true := by
  interval_cases d <;> decide

theorem digitVal_digitCh (d : Nat) (hd : d < 10) : digitVal (digitCh d) = d := by
  interval_cases d <;> decide

theorem digitCh_ne_zeroCh (d : Nat) (hd : d < 10) (h0 : d ≠ 0) : ¬ digitCh d = '0' := by
  interval_cases d
  · exact absurd rfl h0
  all_goals decide

theorem spanDigits_append (B : List Char) (rest : List Char)
    (hB : ∀ c ∈ B, c.isDigit = true) (hr : noDigitHead rest) :
    spanDigits (B ++ rest) = (B, rest) := by
  induction B with
  | nil =>
    cases rest with
    | nil => rfl
    | cons c r =>
      have hc : c.isDigit = false := hr
      simp [spanDigits, hc]
  | cons b B' ih =>
    have hb : b.isDigit = true := hB b (List.mem_cons_self _ _)
    simp only [List.cons_append, spanDigits, hb, if_true]
    simp [ih (fun c hc => hB c (List.mem_cons_of_mem _ hc))]

theorem foldl_reverse_digits (ds : List Nat) (a : Nat) (h : ∀ e ∈ ds, e < 10) :
    ((ds.map digitCh).reverse).foldl (fun a c => a * 10 + digitVal c) a
      = ds.foldr (fun d a => a * 10 + d) a := by
  induction ds with
  | nil => rfl
  | cons e ds ih =>
    simp only [List.map_cons, List.reverse_cons, List.foldl_append, List.foldl_cons,
      List.foldl_nil, List.foldr_cons]
    rw [ih (fun x hx => h x (List.mem_cons_of_mem _ hx)),
      digitVal_digitCh e (h e (List.mem_cons_self _ _))]

/-- The head of a rendered natural is always a digit character. -/
theorem renderNat_shape (n : Nat) : ∃ d t, d < 10 ∧ renderNat n = digitCh d :: t := by
  by_cases hn : n = 0
  · subst hn
    exact ⟨0, [], by norm_num, rfl⟩
  · obtain ⟨ds, dl, hds, _⟩ := digitsLE_last n n hn le_rfl
    have hdl10 : dl < 10 :=
      digitsLE_lt10 n n dl (by rw [hds]; exact List.mem_append_right _ (List.mem_singleton.mpr rfl))
    refine ⟨dl, (ds.map digitCh).reverse, hdl10, ?_⟩
    simp [renderNat, hn, hds]

theorem parseIntPart_renderNat (n : Nat) (rest : List Char) (hr : noDigitHead rest) :
    parseIntPart (renderNat n ++ rest) = some (renderNat n, rest) := by
  by_cases hn : n = 0
  · subst hn
    rw [show renderNat 0 = ['0'] from rfl]
    rfl
  · obtain ⟨ds, dl, hds, hdl⟩ := digitsLE_last n n hn le_rfl
    have hdl10 : dl < 10 :=
      digitsLE_lt10 n n dl (by rw [hds]; exact List.mem_append_right _ (List.mem_singleton.mpr rfl))
    have hds10 : ∀ e ∈ ds, e < 10 := fun e he =>
      digitsLE_lt10 n n e (by rw [hds]; exact List.mem_append_left _ he)
    have hren : renderNat n = digitCh dl :: (ds.map digitCh).reverse := by
      simp [renderNat, hn, hds]
    rw [hren]
    simp only [List.cons_append]
    have hne : ¬ digitCh dl = '0' := digitCh_ne_zeroCh dl hdl10 hdl
    have hdig : (digitCh dl).isDigit = true := digitCh_isDigit dl hdl10
    have hB : ∀ c ∈ (ds.map digitCh).reverse, c.isDigit = true := by
      intro c hc
      rw [List.mem_reverse] at hc
      obtain ⟨e, he, rfl⟩ := List.mem_map.mp hc
      exact digitCh_isDigit e (hds10 e he)
    simp only [parseIntPart, hne, if_false, hdig, if_true,
      spanDigits_append _ _ hB hr]

/-- Folding the decimal digits of a rendered natural recovers it. -/
theorem renderNat_foldl (n : Nat) :
    (renderNat n).foldl (fun a c => a * 10 + digitVal c) 0 = n := by
  by_cases hn : n = 0
  · subst hn; rfl
  · have hds10 : ∀ e ∈ digitsLE n n, e < 10 := fun e he => digitsLE_lt10 n n e he
    rw [show renderNat n = ((digitsLE n n).map digitCh).reverse from by simp [renderNat, hn],
      foldl_reverse_digits _ _ hds10]
    exact digitsLE_horner n n le_rfl

theorem intOfDigits_renderNat (neg : Bool) (n : Nat) :
    intOfDigits neg (renderNat n) = if neg then -(n : Int) else (n : Int) := by
  simp [intOfDigits, renderNat_foldl]

theorem parseFracPart_nb (rest : List Char) (hr : numBoundary rest) :
    parseFracPart rest = some ([], rest) := by
  cases rest with
  | nil => rfl
  | cons c r =>
    obtain ⟨-, h2, -, -⟩ := hr
    simp [parseFracPart, h2]

theorem parseExpPart_nb (rest : List Char) (hr : numBoundary rest) :
    parseExpPart rest = some ([], rest) := by
  cases rest with
  | nil => rfl
  | cons c r =>
    obtain ⟨-, -, h3, h4⟩ := hr
    simp [parseExpPart, h3, h4]

/-- Parsing a rendered natural as a number yields the integer value. -/
theorem parseNumber_renderNat (neg : Bool) (n : Nat) (rest : List Char)
    (hr : numBoundary rest) :
    parseNumber neg (renderNat n ++ rest)
      = some (jnum (if neg then -(n : Int) else (n : Int)), rest) := by
  unfold parseNumber
  rw [parseIntPart_renderNat n rest (numBoundary_noDigit rest hr)]
  simp only []
  rw [parseFracPart_nb rest hr]
  simp only []
  rw [parseExpPart_nb rest hr]
  simp only [List.isEmpty_nil, Bool.and_self, if_true, intOfDigits_renderNat]

theorem parseF_value_neg (fuel : Nat) (r : List Char) :
    parseF (fuel+1) PMode.value ('-' :: r) =
      (if "Infinity".data.isPrefixOf r then some (jfloat "-Infinity".data, r.drop 8)
       else parseNumber true r) := rfl

theorem parseF_value_digit_head (fuel : Nat) (d : Nat) (hd : d < 10) (r : List Char) :
    parseF (fuel+1) PMode.value (digitCh d :: r) = parseNumber false (digitCh d :: r) := by
  interval_cases d <;> rfl

theorem infinity_not_prefix_digit (d : Nat) (hd : d < 10) (t : List Char) :
    "Infinity".data.isPrefixOf (digitCh d :: t) = false := by
  interval_cases d <;> rfl

/-- Parsing a rendered integer recovers it exactly. -/
theorem parseF_renderInt (fuel : Nat) (n : Int) (rest : List Char) (hr : numBoundary rest) :
    parseF (fuel+1) PMode.value (renderInt n ++ rest) = some (jnum n, rest) := by
  by_cases hneg : n < 0
  · rw [show renderInt n = '-' :: renderNat n.natAbs from by simp [renderInt, hneg]]
    simp only [List.cons_append]
    rw [parseF_value_neg]
    obtain ⟨d, t, hd, hshape⟩ := renderNat_shape n.natAbs
    have hpre : "Infinity".data.isPrefixOf (renderNat n.natAbs ++ rest) = false := by
      rw [hshape]
      simp only [List.cons_append]
      exact infinity_not_prefix_digit d hd _
    rw [hpre]
    simp only [Bool.false_eq_true, if_false]
    rw [parseNumber_renderNat true n.natAbs rest hr]
    show some (jnum (-((n.natAbs : Int))), rest) = some (jnum n, rest)
    have : -((n.natAbs : Int)) = n := by omega
    rw [this]
  · rw [show renderInt n = renderNat n.toNat from by simp [renderInt, hneg]]
    obtain ⟨d, t, hd, hshape⟩ := renderNat_shape n.toNat
    have hcons : renderNat n.toNat ++ rest = digitCh d :: (t ++ rest) := by
      rw [hshape]; simp [List.cons_append]
    rw [hcons, parseF_value_digit_head fuel d hd, ← hcons,
      parseNumber_renderNat false n.toNat rest hr]
    show some (jnum ((n.toNat : Int)), rest) = some (jnum n, rest)
    have : ((n.toNat : Int)) = n := by omega
    rw [this]

/-! ## Parsing the saved progress file (C7) -/

theorem parse_step_xp (fuel : Nat) (r : List Char) :
    parseF (fuel+2) PMode.value ("\x7b\n  \"xp\": ".data ++ r) =
      (match parseF fuel PMode.value (' ' :: r) with
       | some vp =>
         match parseF fuel PMode.objLoop vp.2 with
         | some (jobj kvs, rest2) => some (jobj (("xp".data, vp.1) :: kvs), rest2)
         | _ => none
       | none => none) := rfl

theorem parse_step_level (fuel : Nat) (r : List Char) :
    parseF (fuel+1) PMode.objLoop (",\n  \"level\": ".data ++ r) =
      (match parseF fuel PMode.value (' ' :: r) with
       | some vp =>
         match parseF fuel PMode.objLoop vp.2 with
         | some (jobj kvs, rest2) => some (jobj (("level".data, vp.1) :: kvs), rest2)
         | _ => none
       | none => none) := rfl

theorem parse_step_lti (fuel : Nat) (r : List Char) :
    parseF (fuel+1) PMode.objLoop (",\n  \"last_topic_index\": ".data ++ r) =
      (match parseF fuel PMode.value (' ' :: r) with
       | some vp =>
         match parseF fuel PMode.objLoop vp.2 with
         | some (jobj kvs, rest2) => some (jobj (("last_topic_index".data, vp.1) :: kvs), rest2)
         | _ => none
       | none => none) := rfl

theorem parse_step_mc (fuel : Nat) (r : List Char) :
    parseF (fuel+1) PMode.objLoop (",\n  \"missions_completed\": ".data ++ r) =
      (match parseF fuel PMode.value (' ' :: r) with
       | some vp =>
         match parseF fuel PMode.objLoop vp.2 with
         | some (jobj kvs, rest2) =>
           some (jobj (("missions_completed".data, vp.1) :: kvs), rest2)
         | _ => none
       | none => none) := rfl

theorem parse_step_close (fuel : Nat) :
    parseF (fuel+1) PMode.objLoop ("\n\x7d".data) = some (jobj [], []) := rfl

/-- A leading space is whitespace-skipped before a value. -/
theorem parseF_value_sp_renderInt (fuel : Nat) (n : Int) (rest : List Char)
    (hr : numBoundary rest) :
    parseF (fuel+1) PMode.value (' ' :: (renderInt n ++ rest)) = some (jnum n, rest) := by
  have hskip : skipWs (' ' :: (renderInt n ++ rest)) = skipWs (renderInt n ++ rest) := by
    simp [skipWs, List.dropWhile_cons, isJsonWs]
  rw [show parseF (fuel+1) PMode.value (' ' :: (renderInt n ++ rest))
      = parseF (fuel+1) PMode.value (renderInt n ++ rest) from by
    simp only [parseF, hskip]]
  exact parseF_renderInt fuel n rest hr

theorem ndLevel (r : List Char) : numBoundary (",\n  \"level\": ".data ++ r) :=
  ⟨by decide, by decide, by decide, by decide⟩

theorem ndLti (r : List Char) :
    numBoundary (",\n  \"last_topic_index\": ".data ++ r) :=
  ⟨by decide, by decide, by decide, by decide⟩

theorem ndMc (r : List Char) :
    numBoundary (",\n  \"missions_completed\": ".data ++ r) :=
  ⟨by decide, by decide, by decide, by decide⟩

theorem ndClose : numBoundary ("\n\x7d".data) :=
  ⟨by decide, by decide, by decide, by decide⟩

/-- The record saved by `save_progress` parses back to exactly its four
fields, consuming the whole file. -/
theorem parseF_save_progress (d : ProgressData) (f : Nat) :
    parseF (f+6) PMode.value (save_progress d) =
      some (jobj [("xp".data, jnum d.xp), ("level".data, jnum d.level),
        ("last_topic_index".data, jnum d.last_topic_index),
        ("missions_completed".data, jnum d.missions_completed)], []) := by
  unfold save_progress
  simp only [List.append_assoc]
  rw [parse_step_xp]
  rw [parseF_value_sp_renderInt]
  simp only []
  rw [parse_step_level]
  rw [parseF_value_sp_renderInt]
  simp only []
  rw [parse_step_lti]
  rw [parseF_value_sp_renderInt]
  simp only []
  rw [parse_step_mc]
  rw [parseF_value_sp_renderInt]
  simp only []
  rw [parse_step_close]
  all_goals first
    | exact ndLevel _
    | exact ndLti _
    | exact ndMc _
    | exact ndClose

/-! ## Claim C7 -/

/-- C7: progress persistence round-trips.  Writing any four-field
progress record with `save_progress` and reading the unmodified file back
with `load_progress` recovers exactly the record (as the four JSON
integers), so the persisted local state is exactly this four-field
counter record. -/
theorem c7_progress_round_trip (d : ProgressData) :
    load_progress (.content (save_progress d)) =
      .ok ⟨jnum d.xp, jnum d.level, jnum d.last_topic_index, jnum d.missions_completed⟩ := by
  have hlen10 : ("\x7b\n  \"xp\": ".data).length = 10 := rfl
  have hlen : 5 ≤ (save_progress d).length := by
    simp only [save_progress, List.length_append, hlen10]
    omega
  obtain ⟨g, hg⟩ : ∃ g, (save_progress d).length + 1 = g + 6 :=
    ⟨(save_progress d).length - 5, by omega⟩
  have hparse : jsonParse (save_progress d) =
      some (jobj [("xp".data, jnum d.xp), ("level".data, jnum d.level),
        ("last_topic_index".data, jnum d.last_topic_index),
        ("missions_completed".data, jnum d.missions_completed)]) := by
    unfold jsonParse
    rw [hg, parseF_save_progress]
    rfl
  simp only [load_progress, hparse]
  rfl

/-! ## Whitespace stripping around a JSON object text (toward C1) -/

theorem fenceOpen_not_prefix_lbrace (x : List Char) :
    FENCE_OPEN.isPrefixOf (lbraceChar :: x) = false := rfl

theorem dropWhile_pyWs_lbrace (x : List Char) :
    List.dropWhile isPyWs (lbraceChar :: x) = lbraceChar :: x := rfl

end NmapDojo
